import Mathlib

/-!
Verification development for the streaming chat-completion translator of
`anon-kode` (files `src/services/openai.ts`, `src/services/ollama-client.js`,
`src/services/ollama-stream.js`).

The JavaScript/TypeScript code is shallowly embedded: strings are `List Char`
(`Chars`) at the processing level and `String` at the API level, `JSON.parse`
is an executable JSON reader producing a `Json` value (numbers are kept as
their source lexemes since no translated code path observes numeric values),
and the JavaScript regular expressions used by the intent-recovery engine are
transcribed into a small executable regex AST (`RE`) whose backtracking
matcher mirrors JavaScript leftmost-match, greedy/lazy and alternation-order
semantics for the constructs those patterns use (single-character classes
under `+`/`*`, lazy `[\s\S]*?`, alternations of literals, optional groups).

Chunk `id` / `created` / `object` fields are wall-clock-derived identifiers
(`Date.now()`), used only for observability; they are not modelled.
-/

namespace AnonKode

abbrev Chars := List Char

/-- JavaScript whitespace as used by `\s`, `trim` and `JSON.parse`
(ASCII part; the Unicode space characters are not modelled because no
claim's input contains them). -/
def jsWS (c : Char) : Bool :=
  c == ' ' || c == '\t' || c == '\n' || c == '\r' ||
  c == Char.ofNat 11 || c == Char.ofNat 12

/-- The double-quote character. -/
def dquoteC : Char := Char.ofNat 34

/-- The single-quote (apostrophe) character. -/
def aposC : Char := Char.ofNat 39

/-- The backtick character. -/
def btickC : Char := Char.ofNat 96

/-- `String.prototype.trim`. -/
def trimL (cs : Chars) : Chars :=
  ((cs.dropWhile jsWS).reverse.dropWhile jsWS).reverse

/-- `String.prototype.toLowerCase` (ASCII). -/
def lowerL (cs : Chars) : Chars := cs.map Char.toLower

/-- Case-sensitive "starts with". -/
def startsWithL : Chars → Chars → Bool
  | _, [] => true
  | [], _ :: _ => false
  | c :: cs, p :: ps => c == p && startsWithL cs ps

/-- Strip a literal from the front of the input; `ci` selects
case-insensitive comparison (the `/i` regex flag). -/
def stripL (ci : Bool) : Chars → Chars → Option Chars
  | [], s => some s
  | _ :: _, [] => none
  | p :: ps, c :: cs =>
      if (if ci then p.toLower == c.toLower else p == c) then stripL ci ps cs
      else none

/-- Index of the first occurrence of `pat` in `text` (case-sensitive),
as in `String.prototype.indexOf` / `includes`. -/
def findSubL (text pat : Chars) : Option Nat :=
  if startsWithL text pat then some 0
  else
    match text with
    | [] => none
    | _ :: t => (findSubL t pat).map (· + 1)

/-- `String.prototype.includes` (case-sensitive). -/
def inclL (text pat : Chars) : Bool := (findSubL text pat).isSome

/-- `String.prototype.split('\n')` (keeps empty pieces); `acc` holds the
reversed characters of the piece being read. -/
def splitAllNlAux (acc : Chars) : Chars → List Chars
  | [] => [acc.reverse]
  | c :: t =>
      if c == '\n' then acc.reverse :: splitAllNlAux [] t
      else splitAllNlAux (c :: acc) t

def splitAllNl (cs : Chars) : List Chars := splitAllNlAux [] cs

/-- The line-extraction loop shared by all three stream processors
(`let lineEnd = buffer.indexOf('\n'); while (lineEnd !== -1) ...`): each
complete line is `trim`med and collected; the trailing partial line is
returned as the new buffer. -/
def splitCompleteLinesAux (acc : Chars) : Chars → List Chars × Chars
  | [] => ([], acc.reverse)
  | c :: t =>
      if c == '\n' then
        let p := splitCompleteLinesAux [] t
        (trimL acc.reverse :: p.1, p.2)
      else splitCompleteLinesAux (c :: acc) t

def splitCompleteLines (cs : Chars) : List Chars × Chars :=
  splitCompleteLinesAux [] cs

/-- Reading loop of the processors: each `reader.read()` chunk is decoded and
appended to the buffer, then all complete lines are extracted.  Returns the
extracted (trimmed) lines in order and the final unprocessed buffer. -/
def feedReads (reads : List String) : List Chars × Chars :=
  reads.foldl
    (fun acc r =>
      let p := splitCompleteLines (acc.2 ++ r.toList)
      (acc.1 ++ p.1, p.2))
    ([], [])

/-!
## JSON values and `JSON.parse`

Numbers are kept as their validated source lexemes: none of the translated
code paths observes a numeric value (contents are strings, completion flags
are booleans), only truthiness.  Absent object fields and JSON `null` are
both represented by `jnull` (both are falsy and the translated code only
ever tests them for truthiness or reads sub-fields, which yields
`undefined`/`jnull` again either way).
-/

inductive Json where
  | jnull
  | jbool (b : Bool)
  | jnum (lexeme : String)
  | jstr (s : String)
  | jarr (xs : List Json)
  | jobj (fields : List (String × Json))

/-- A numeric literal is truthy iff its mathematical value is nonzero:
some digit of the mantissa is nonzero.  (Floating-point underflow to zero of
tiny nonzero literals is not modelled; no claim involves such a literal.) -/
def numTruthy (s : String) : Bool :=
  (s.toList.takeWhile (fun c => c != 'e' && c != 'E')).any
    (fun c => c.isDigit && c != '0')

/-- JavaScript truthiness of a JSON value. -/
def jsTruthy : Json → Bool
  | .jnull => false
  | .jbool b => b
  | .jnum s => numTruthy s
  | .jstr s => !s.isEmpty
  | .jarr _ => true
  | .jobj _ => true

/-- Property access `j.k`: looks a key up in an object; anything else
(including absence) is `jnull` (JavaScript `undefined`, see above). -/
def Json.getF : Json → String → Json
  | .jobj fs, k => match fs.find? (fun p => p.1 == k) with
    | some p => p.2
    | none => .jnull
  | _, _ => .jnull

/-- JavaScript `a || b` on JSON values. -/
def jsOr (a b : Json) : Json := if jsTruthy a then a else b

/-- Object-key assignment `o[k] = v`: overrides in place, appends new keys. -/
def assocSet (l : List (String × Json)) (k : String) (v : Json) :
    List (String × Json) :=
  if l.any (fun p => p.1 == k) then
    l.map (fun p => if p.1 == k then (k, v) else p)
  else l ++ [(k, v)]

/-- Hexadecimal digit value, by position in the digit alphabet. -/
def hexVal (c : Char) : Option Nat :=
  let alphabet := "0123456789abcdef".toList
  let i := alphabet.indexOf c.toLower
  if i < alphabet.length then some i else none

/-- Body of a JSON string literal after the opening quote: returns the
decoded characters and the input after the closing quote.  A `\uXXXX` escape
that does not denote a Unicode scalar value (a lone surrogate) decodes to
U+FFFD; the distinction is unobservable in any claim. -/
def pStrBody : Nat → Chars → Option (Chars × Chars)
  | 0, _ => none
  | _ + 1, [] => none
  | fuel + 1, c :: cs =>
      if c == dquoteC then some ([], cs)
      else if c == '\\' then
        match cs with
        | [] => none
        | e :: cs2 =>
            let dec : Option (Char × Chars) :=
              if e == dquoteC then some (dquoteC, cs2)
              else if e == '\\' then some ('\\', cs2)
              else if e == '/' then some ('/', cs2)
              else if e == 'b' then some (Char.ofNat 8, cs2)
              else if e == 'f' then some (Char.ofNat 12, cs2)
              else if e == 'n' then some ('\n', cs2)
              else if e == 'r' then some ('\r', cs2)
              else if e == 't' then some ('\t', cs2)
              else if e == 'u' then
                match cs2 with
                | h1 :: h2 :: h3 :: h4 :: cs3 =>
                    match [h1, h2, h3, h4].mapM hexVal with
                    | some vs =>
                        let n := vs.foldl (fun acc v => 16 * acc + v) 0
                        some (if n.isValidChar then Char.ofNat n
                              else Char.ofNat 0xFFFD, cs3)
                    | none => none
                | _ => none
              else none
            match dec with
            | some (ch, rest) =>
                (pStrBody fuel rest).map (fun p => (ch :: p.1, p.2))
            | none => none
      else if c.toNat < 0x20 then none
      else (pStrBody fuel cs).map (fun p => (c :: p.1, p.2))

/-- JSON number lexeme after an optional leading `-` has been checked:
`int [frac] [exp]` with the JSON leading-zero rule. -/
def pNumTail (cs : Chars) : Option (Chars × Chars) :=
  let intPart : Option (Chars × Chars) :=
    match cs with
    | [] => none
    | c :: rest =>
        if c == '0' then some ([c], rest)
        else if c.isDigit then
          some (c :: rest.takeWhile Char.isDigit, rest.dropWhile Char.isDigit)
        else none
  match intPart with
  | none => none
  | some (ip, r1) =>
      let fracPart : Chars × Chars :=
        match r1 with
        | '.' :: d :: r2 =>
            if d.isDigit then
              ('.' :: d :: r2.takeWhile Char.isDigit,
               r2.dropWhile Char.isDigit)
            else ([], r1)
        | _ => ([], r1)
      let r2 := fracPart.2
      let expPart : Option (Chars × Chars) :=
        match r2 with
        | e :: r3 =>
            if e == 'e' || e == 'E' then
              let (sgn, r4) :=
                match r3 with
                | s :: r4 => if s == '+' || s == '-' then ([s], r4) else ([], r3)
                | [] => ([], r3)
              match r4.takeWhile Char.isDigit with
              | [] => none
              | ds => some (e :: sgn ++ ds, r4.dropWhile Char.isDigit)
            else some ([], r2)
        | [] => some ([], r2)

      match expPart with
      | none => none
      | some (ep, r5) => some (ip ++ fracPart.1 ++ ep, r5)

mutual

/-- One JSON value (leading whitespace allowed), returning the rest. -/
def pVal : Nat → Chars → Option (Json × Chars)
  | 0, _ => none
  | fuel + 1, cs =>
      let cs := cs.dropWhile jsWS
      match cs with
      | [] => none
      | c :: rest =>
          if c == dquoteC then
            (pStrBody (rest.length + 1) rest).map
              (fun p => (Json.jstr (String.mk p.1), p.2))
          else if c == '[' then
            pArrItems fuel rest
          else if c == Char.ofNat 123 then
            pObjItems fuel rest
          else if c == 't' then
            (stripL false "rue".toList rest).map (fun r => (Json.jbool true, r))
          else if c == 'f' then
            (stripL false "alse".toList rest).map
              (fun r => (Json.jbool false, r))
          else if c == 'n' then
            (stripL false "ull".toList rest).map (fun r => (Json.jnull, r))
          else if c == '-' then
            (pNumTail rest).map
              (fun p => (Json.jnum (String.mk ('-' :: p.1)), p.2))
          else if c.isDigit then
            (pNumTail cs).map (fun p => (Json.jnum (String.mk p.1), p.2))
          else none

/-- Array items after `[`. -/
def pArrItems : Nat → Chars → Option (Json × Chars)
  | 0, _ => none
  | fuel + 1, cs =>
      let cs0 := cs.dropWhile jsWS
      match cs0 with
      | c :: rest =>
          if c == ']' then some (Json.jarr [], rest)
          else
            match pVal fuel cs0 with
            | none => none
            | some (v, r1) => pArrRest fuel [v] r1
      | [] => none

/-- Remaining array items: `, value`* then `]`. -/
def pArrRest : Nat → List Json → Chars → Option (Json × Chars)
  | 0, _, _ => none
  | fuel + 1, acc, cs =>
      let cs0 := cs.dropWhile jsWS
      match cs0 with
      | c :: rest =>
          if c == ']' then some (Json.jarr acc, rest)
          else if c == ',' then
            match pVal fuel rest with
            | none => none
            | some (v, r1) => pArrRest fuel (acc ++ [v]) r1
          else none
      | [] => none

/-- Object items after `{`. -/
def pObjItems : Nat → Chars → Option (Json × Chars)
  | 0, _ => none
  | fuel + 1, cs =>
      let cs0 := cs.dropWhile jsWS
      match cs0 with
      | c :: rest =>
          if c == Char.ofNat 125 then some (Json.jobj [], rest)
          else if c == dquoteC then
            match pObjPair fuel rest with
            | none => none
            | some (k, v, r1) => pObjRest fuel (assocSet [] k v) r1
          else none
      | [] => none

/-- One `key: value` pair, the key's opening quote already consumed. -/
def pObjPair : Nat → Chars → Option (String × Json × Chars)
  | 0, _ => none
  | fuel + 1, cs =>
      match pStrBody (cs.length + 1) cs with
      | none => none
      | some (k, r1) =>
          match r1.dropWhile jsWS with
          | ':' :: r2 =>
              match pVal fuel r2 with
              | none => none
              | some (v, r3) => some (String.mk k, v, r3)
          | _ => none

/-- Remaining object members: `, "key": value`* then `}`. -/
def pObjRest : Nat → List (String × Json) → Chars →
    Option (Json × Chars)
  | 0, _, _ => none
  | fuel + 1, acc, cs =>
      let cs0 := cs.dropWhile jsWS
      match cs0 with
      | c :: rest =>
          if c == Char.ofNat 125 then some (Json.jobj acc, rest)
          else if c == ',' then
            match rest.dropWhile jsWS with
            | q :: r1 =>
                if q == dquoteC then
                  match pObjPair fuel r1 with
                  | none => none
                  | some (k, v, r2) => pObjRest fuel (assocSet acc k v) r2
                else none
            | [] => none
          else none
      | [] => none

end

/-- `JSON.parse` on a character list: `none` models a thrown `SyntaxError`
(the processors catch it and skip the line). -/
def parseJsonL (cs : Chars) : Option Json :=
  match pVal (cs.length + 2) cs with
  | none => none
  | some (v, rest) => if (rest.dropWhile jsWS).isEmpty then some v else none

/-- `JSON.parse` on a `String`. -/
def parseJson (s : String) : Option Json := parseJsonL s.toList

/-!
## Regular expressions

AST for exactly the constructs appearing in the translated patterns:
case-sensitive and `/i` literals, single-character classes, greedy `+`/`*`
and lazy `*?` over a single-character class, greedy `?`, alternation
(left-preferring, as in JavaScript), concatenation and numbered capture
groups.  The matcher is continuation-passing backtracking, which for these
constructs coincides with the JavaScript engine's leftmost,
priority-ordered match.
-/

inductive RE where
  | eps
  | lit (ci : Bool) (s : String)
  | cls (p : Char → Bool)
  | plus (p : Char → Bool)
  | star (p : Char → Bool)
  | lazyStar (p : Char → Bool)
  | opt (r : RE)
  | alt (a b : RE)
  | seq (a b : RE)
  | grp (i : Nat) (r : RE)

/-- Captured groups: group index to captured characters; earliest entry
wins on lookup (entries are prepended, and no pattern captures the same
group twice in one match). -/
abbrev Caps := List (Nat × Chars)

def capGet (e : Caps) (i : Nat) : Option Chars :=
  (e.find? (fun p => p.1 == i)).map (fun p => p.2)

/-- Try `f hi`, `f (hi-1)`, ..., `n + 1` candidates in all (greedy order). -/
def descend (f : Nat → Option α) (hi : Nat) : Nat → Option α
  | 0 => f hi
  | n + 1 =>
      match f hi with
      | some r => some r
      | none => descend f (hi - 1) n

/-- Try `f i`, `f (i+1)`, ..., `n + 1` candidates in all (lazy order). -/
def ascend (f : Nat → Option α) (i : Nat) : Nat → Option α
  | 0 => f i
  | n + 1 =>
      match f i with
      | some r => some r
      | none => ascend f (i + 1) n

/-- Backtracking matcher: match `r` against a front segment of `s`, then
hand the rest and the captures to the continuation `k`. -/
def reM : RE → Chars → Caps → (Chars → Caps → Option (Chars × Caps)) →
    Option (Chars × Caps)
  | .eps, s, e, k => k s e
  | .lit ci p, s, e, k =>
      match stripL ci p.toList s with
      | some s2 => k s2 e
      | none => none
  | .cls p, s, e, k =>
      match s with
      | [] => none
      | c :: t => if p c then k t e else none
  | .plus p, s, e, k =>
      let n := (s.takeWhile p).length
      if n == 0 then none else descend (fun i => k (s.drop i) e) n (n - 1)
  | .star p, s, e, k =>
      let n := (s.takeWhile p).length
      descend (fun i => k (s.drop i) e) n n
  | .lazyStar p, s, e, k =>
      let n := (s.takeWhile p).length
      ascend (fun i => k (s.drop i) e) 0 n
  | .opt r, s, e, k =>
      match reM r s e k with
      | some res => some res
      | none => k s e
  | .alt a b, s, e, k =>
      match reM a s e k with
      | some res => some res
      | none => reM b s e k
  | .seq a b, s, e, k => reM a s e (fun s2 e2 => reM b s2 e2 k)
  | .grp i r, s, e, k =>
      reM r s e (fun s2 e2 => k s2 ((i, s.take (s.length - s2.length)) :: e2))

/-- Match `r` against a front segment of `s` from its very start. -/
def reRun (r : RE) (s : Chars) : Option (Chars × Caps) :=
  reM r s [] (fun rest e => some (rest, e))

/-- `String.prototype.match`: leftmost match; returns (`match[0]`, captures,
rest of the input after the match). -/
def reFindFrom (r : RE) : Chars → Option (Chars × Caps × Chars)
  | [] =>
      match reRun r [] with
      | some (rest, e) => some ([], e, rest)
      | none => none
  | s@(_ :: t) =>
      match reRun r s with
      | some (rest, e) => some (s.take (s.length - rest.length), e, rest)
      | none => reFindFrom r t

/-- `String.prototype.match`: (`match[0]`, captures). -/
def reFindL (r : RE) (s : Chars) : Option (Chars × Caps) :=
  (reFindFrom r s).map (fun p => (p.1, p.2.1))

/-- `String.prototype.matchAll`: all non-overlapping matches left to right,
continuing after each match (advancing one character on an empty match,
as the JavaScript iterator does via `lastIndex`). -/
def reFindAllF (r : RE) : Nat → Chars → List (Chars × Caps)
  | 0, _ => []
  | fuel + 1, s =>
      match reFindFrom r s with
      | none => []
      | some (m0, caps, rest) =>
          (m0, caps) ::
            (if m0.isEmpty then
              match rest with
              | [] => []
              | _ :: t => reFindAllF r fuel t
            else reFindAllF r fuel rest)

def reFindAll (r : RE) (s : Chars) : List (Chars × Caps) :=
  reFindAllF r (s.length + 1) s

/-!
## The intent-recovery pattern tables (`openai.ts`)

Each entry transcribes one JavaScript regex from the `commandPatterns`
arrays; the streaming copy (lines 129-190) and the non-streaming copy
(lines 679-741) differ only in their git-command patterns.  `gitGroup`
records whether `pattern.toString().includes('(add|status|diff|log')` —
true exactly for the three non-streaming git patterns, whose alternation
starts with `add`; the streaming git patterns start with `status` and so
never take the special-handling branch.
-/

/-- Concatenation of a pattern list. -/
def seqL : List RE → RE
  | [] => .eps
  | [r] => r
  | r :: rs => .seq r (seqL rs)

/-- Alternation of a pattern list (left to right, JavaScript order). -/
def altL : List RE → RE
  | [] => .eps
  | [r] => r
  | r :: rs => .alt r (altL rs)

/-- Case-insensitive literal (inside a `/i` pattern). -/
def Lci (s : String) : RE := .lit true s

/-- Case-sensitive literal. -/
def Lcs (s : String) : RE := .lit false s

/-- `\s+`. -/
def wsP : RE := .plus jsWS

/-- Negated character class `[^...]`. -/
def notIn (bad : List Char) (c : Char) : Bool := !(bad.contains c)

/-- `[a-zA-Z0-9_\-\.\/]`. -/
def wordC (c : Char) : Bool :=
  c.isAlpha || c.isDigit || c == '_' || c == '-' || c == '.' || c == '/'

/-- JavaScript `.` (anything but a line terminator; the rare U+2028/U+2029
are not modelled). -/
def dotC (c : Char) : Bool := c != '\n' && c != '\r'

/-- Greedy `.*`. -/
def dotS : RE := .star dotC

/-- A quoted command with its capture group: `q([^q]+)q`. -/
def quotedG1 (q : Char) : RE :=
  seqL [.cls (fun c => c == q), .grp 1 (.plus (notIn [q])),
        .cls (fun c => c == q)]

/-- Streaming git-subcommand alternation
`(status|diff|log|branch|checkout|pull|push|fetch|clone|add|commit|reset|revert|stash|merge|rebase)`. -/
def gitSubsS : RE :=
  .grp 1 (altL [Lci "status", Lci "diff", Lci "log", Lci "branch",
    Lci "checkout", Lci "pull", Lci "push", Lci "fetch", Lci "clone",
    Lci "add", Lci "commit", Lci "reset", Lci "revert", Lci "stash",
    Lci "merge", Lci "rebase"])

/-- Non-streaming git-subcommand alternation
`(add|status|diff|log|branch|checkout|pull|push|fetch|clone|commit|reset|revert|stash|merge|rebase)`. -/
def gitSubsNS : RE :=
  .grp 1 (altL [Lci "add", Lci "status", Lci "diff", Lci "log",
    Lci "branch", Lci "checkout", Lci "pull", Lci "push", Lci "fetch",
    Lci "clone", Lci "commit", Lci "reset", Lci "revert", Lci "stash",
    Lci "merge", Lci "rebase"])

/-- `(\s+[^\n]+)?` — the argument tail of the non-streaming git patterns. -/
def gitArgTail : RE := .opt (.grp 2 (.seq wsP (.plus (notIn ['\n']))))

/-- `([a-zA-Z0-9_\-\.\/]+(\s+[^\n\."\']+)?)` (patterns after `run `/`execute `). -/
def bareCmdG1 : RE :=
  .grp 1 (.seq (.plus wordC)
    (.opt (.grp 2 (.seq wsP (.plus (notIn ['\n', '.', dquoteC, aposC]))))))

/-- `([a-zA-Z0-9_\-\.\/]+(\s+[^\n\."\'])?)` — note the single (not `+`)
character after the whitespace, as written in the source. -/
def bareCmdOneG1 : RE :=
  .grp 1 (.seq (.plus wordC)
    (.opt (.grp 2 (.seq wsP (.cls (notIn ['\n', '.', dquoteC, aposC]))))))

/-- `(?:should|need to|can|could|would|must)`. -/
def modalAlt : RE :=
  altL [Lci "should", Lci "need to", Lci "can", Lci "could", Lci "would",
        Lci "must"]

/-- `(?:'ll| will| should| need to)`. -/
def iVerbAlt : RE :=
  altL [Lci "\x27ll", Lci " will", Lci " should", Lci " need to"]

/-- One table entry: the transcribed regex and its
`toString().includes('(add|status|diff|log')` flag. -/
structure Pat where
  re : RE
  gitGroup : Bool

/-- Patterns 1-12 of both tables: quoted `run`/`execute` command requests. -/
def quotedRunPatterns : List Pat := [
  ⟨seqL [Lci "run", wsP, quotedG1 btickC], false⟩,
  ⟨seqL [Lci "run", wsP, quotedG1 dquoteC], false⟩,
  ⟨seqL [Lci "run", wsP, quotedG1 aposC], false⟩,
  ⟨seqL [Lci "run", wsP, Lci "the", wsP, Lci "command", wsP,
        quotedG1 btickC], false⟩,
  ⟨seqL [Lci "run", wsP, Lci "the", wsP, Lci "command", wsP,
        quotedG1 dquoteC], false⟩,
  ⟨seqL [Lci "run", wsP, Lci "the", wsP, Lci "command", wsP,
        quotedG1 aposC], false⟩,
  ⟨seqL [Lci "execute", wsP, quotedG1 btickC], false⟩,
  ⟨seqL [Lci "execute", wsP, quotedG1 dquoteC], false⟩,
  ⟨seqL [Lci "execute", wsP, quotedG1 aposC], false⟩,
  ⟨seqL [Lci "execute", wsP, Lci "the", wsP, Lci "command", wsP,
        quotedG1 btickC], false⟩,
  ⟨seqL [Lci "execute", wsP, Lci "the", wsP, Lci "command", wsP,
        quotedG1 dquoteC], false⟩,
  ⟨seqL [Lci "execute", wsP, Lci "the", wsP, Lci "command", wsP,
        quotedG1 aposC], false⟩]

/-- The shared tail of both tables: `/run ls/i` ... `/run touch/i`, the bare
`run`/`execute` extractors, the "inferring common commands" block and the
"you should run" / "I'll run" blocks. -/
def commonTailPatterns : List Pat := [
  ⟨Lci "run ls", false⟩,
  ⟨Lci "run cd", false⟩,
  ⟨Lci "run mkdir", false⟩,
  ⟨Lci "run rm", false⟩,
  ⟨Lci "run cat", false⟩,
  ⟨Lci "run grep", false⟩,
  ⟨Lci "run find", false⟩,
  ⟨Lci "run echo", false⟩,
  ⟨Lci "run touch", false⟩,
  ⟨.seq (Lci "run ") bareCmdG1, false⟩,
  ⟨.seq (Lci "execute ") bareCmdG1, false⟩,
  ⟨seqL [Lci "you", dotS, Lci " need to run git status"], false⟩,
  ⟨seqL [Lci "you", dotS, Lci " run the git status command"], false⟩,
  ⟨seqL [Lci "I", dotS, Lci " need to run git status"], false⟩,
  ⟨seqL [Lci "I", dotS, Lci " run git status for"], false⟩,
  ⟨Lci "using the git status command", false⟩,
  ⟨seqL [Lci "To check ", dotS, Lci " git status"], false⟩,
  ⟨seqL [Lci "To see ", dotS, Lci " git status"], false⟩,
  ⟨seqL [Lci "to check ", dotS, Lci " run ", quotedG1 dquoteC], false⟩,
  ⟨seqL [Lci "to check ", dotS, Lci " run ", quotedG1 aposC], false⟩,
  ⟨seqL [Lci "to check ", dotS, Lci " run ", quotedG1 btickC], false⟩,
  ⟨seqL [Lci "to see ", dotS, Lci " run ", quotedG1 dquoteC], false⟩,
  ⟨seqL [Lci "to see ", dotS, Lci " run ", quotedG1 aposC], false⟩,
  ⟨seqL [Lci "to see ", dotS, Lci " run ", quotedG1 btickC], false⟩,
  ⟨seqL [Lci "to view ", dotS, Lci " run ", quotedG1 dquoteC], false⟩,
  ⟨seqL [Lci "to view ", dotS, Lci " run ", quotedG1 aposC], false⟩,
  ⟨seqL [Lci "to view ", dotS, Lci " run ", quotedG1 btickC], false⟩,
  ⟨seqL [Lci "you ", modalAlt, Lci " run", wsP, bareCmdOneG1], false⟩,
  ⟨seqL [Lci "you ", modalAlt, Lci " run", wsP, quotedG1 dquoteC], false⟩,
  ⟨seqL [Lci "you ", modalAlt, Lci " run", wsP, quotedG1 aposC], false⟩,
  ⟨seqL [Lci "you ", modalAlt, Lci " run", wsP, quotedG1 btickC], false⟩,
  ⟨seqL [Lci "I", iVerbAlt, Lci " run", wsP, bareCmdOneG1], false⟩,
  ⟨seqL [Lci "I", iVerbAlt, Lci " run", wsP, quotedG1 dquoteC], false⟩,
  ⟨seqL [Lci "I", iVerbAlt, Lci " run", wsP, quotedG1 aposC], false⟩,
  ⟨seqL [Lci "I", iVerbAlt, Lci " run", wsP, quotedG1 btickC], false⟩]

/-- Streaming `commandPatterns` (openai.ts lines 129-190): the git patterns
`/run git (status|...)/i` and `/execute git (status|...)/i` capture only the
subcommand and carry no argument tail, and their alternation does not start
with `add`, so `gitGroup` is false. -/
def streamingPatterns : List Pat :=
  quotedRunPatterns ++
  [⟨.seq (Lci "run git ") gitSubsS, false⟩,
   ⟨.seq (Lci "execute git ") gitSubsS, false⟩] ++
  commonTailPatterns

/-- Non-streaming `commandPatterns` (openai.ts lines 679-741): the three git
patterns have the `add`-first alternation and an argument tail, and are the
ones whose printed source contains `(add|status|diff|log`. -/
def nonStreamingPatterns : List Pat :=
  quotedRunPatterns ++
  [⟨seqL [Lci "run git ", gitSubsNS, gitArgTail], true⟩,
   ⟨seqL [Lci "execute git ", gitSubsNS, gitArgTail], true⟩,
   ⟨seqL [Lci "git ", gitSubsNS, gitArgTail], true⟩] ++
  commonTailPatterns

/-- `match[0].replace(/^(run|execute)\s+/, '')` (case-sensitive, as the
replace regex carries no `/i` flag). -/
def stripRunExec (m0 : Chars) : Chars :=
  match stripL false "run".toList m0 with
  | some rest =>
      if (rest.takeWhile jsWS).isEmpty then m0 else rest.dropWhile jsWS
  | none =>
      match stripL false "execute".toList m0 with
      | some rest =>
          if (rest.takeWhile jsWS).isEmpty then m0 else rest.dropWhile jsWS
      | none => m0

/-- The `for (const pattern of commandPatterns)` loop: the first match
either takes the git special-handling branch (`gitGroup` and truthy
`match[0]`), or uses a truthy `match[1]`; a match with a falsy `match[1]`
does not break the loop. -/
def scanTable : List Pat → Chars → Option Chars
  | [], _ => none
  | p :: ps, text =>
      match reFindL p.re text with
      | none => scanTable ps text
      | some (m0, caps) =>
          if p.gitGroup && !m0.isEmpty then
            some (if startsWithL m0 "run ".toList ||
                     startsWithL m0 "execute ".toList then
                    stripRunExec m0
                  else m0)
          else
            match capGet caps 1 with
            | some c => if c.isEmpty then scanTable ps text else some c
            | none => scanTable ps text

/-!
## Git keyword detectors and the think-block fallback

These transcribe the `if (!command && ...)` chain following the pattern
loop; the streaming (lines 216-325) and non-streaming (lines 767-876)
copies are character-identical, so one definition serves both paths.
-/

/-- `includes` on the lowercased text against a lowercase literal. -/
def lcIncl (lc : Chars) (s : String) : Bool := inclL lc s.toList

def gitStatusCond (lc : Chars) : Bool :=
  lcIncl lc "git status" ||
  (lcIncl lc "run git" && lcIncl lc "status") ||
  (lcIncl lc "show" && lcIncl lc "status") ||
  (lcIncl lc "user" && lcIncl lc "git" && lcIncl lc "status")

def gitAddCond (lc : Chars) : Bool :=
  lcIncl lc "git add" ||
  (lcIncl lc "run git" && lcIncl lc "add") ||
  (lcIncl lc "stage" && lcIncl lc "changes")

def gitCommitCond (lc : Chars) : Bool :=
  lcIncl lc "git commit" ||
  (lcIncl lc "run git" && lcIncl lc "commit") ||
  (lcIncl lc "execute git" && lcIncl lc "commit") ||
  (lcIncl lc "commit" && lcIncl lc "changes")

def gitPushCond (lc : Chars) : Bool :=
  lcIncl lc "git push" ||
  (lcIncl lc "run git" && lcIncl lc "push") ||
  (lcIncl lc "execute git" && lcIncl lc "push") ||
  (lcIncl lc "push" && lcIncl lc "changes" && lcIncl lc "remote")

/-- `m && m[1]` for a regex match: the capture when it is truthy. -/
def cap1Truthy : Option (Chars × Caps) → Option Chars
  | some (_, e) =>
      match capGet e 1 with
      | some c => if c.isEmpty then none else some c
      | none => none
  | none => none

/-- `a.match(r1) || a.match(r2) || a.match(r3)`. -/
def match3 (r1 r2 r3 : RE) (text : Chars) : Option (Chars × Caps) :=
  match reFindL r1 text with
  | some m => some m
  | none =>
      match reFindL r2 text with
      | some m => some m
      | none => reFindL r3 text

/-- `/git add\s+([^\n]+)/i` and its `run`/`execute` variants. -/
def addArgMatch (text : Chars) : Option (Chars × Caps) :=
  match3 (seqL [Lci "git add", wsP, .grp 1 (.plus (notIn ['\n']))])
         (seqL [Lci "run git add", wsP, .grp 1 (.plus (notIn ['\n']))])
         (seqL [Lci "execute git add", wsP, .grp 1 (.plus (notIn ['\n']))])
         text

def gitAddCmd (text : Chars) : Chars :=
  match cap1Truthy (addArgMatch text) with
  | some a => "git add ".toList ++ a
  | none => "git add .".toList

/-- `["']` and `[^"']`. -/
def eitherQuote (c : Char) : Bool := c == dquoteC || c == aposC

/-- `/<pre> commit\s+-m\s+["']([^"']+)["']/i`-shaped message extractor. -/
def commitMsgRe (pre : String) (flag : String) : RE :=
  seqL [Lci pre, wsP, Lci flag, wsP, .cls eitherQuote,
        .grp 1 (.plus (notIn [dquoteC, aposC])), .cls eitherQuote]

def commitMsgMatch (text : Chars) : Option (Chars × Caps) :=
  match3 (commitMsgRe "git commit" "-m")
         (commitMsgRe "run git commit" "-m")
         (commitMsgRe "execute git commit" "-m") text

def commitAllMatch (text : Chars) : Option (Chars × Caps) :=
  match3 (commitMsgRe "git commit" "-am")
         (commitMsgRe "run git commit" "-am")
         (commitMsgRe "execute git commit" "-am") text

def gitCommitCmd (text : Chars) : Chars :=
  match cap1Truthy (commitMsgMatch text) with
  | some m => "git commit -m \"".toList ++ m ++ "\"".toList
  | none =>
      match cap1Truthy (commitAllMatch text) with
      | some m => "git commit -am \"".toList ++ m ++ "\"".toList
      | none => "git commit -m \"Changes from Claude Code session\"".toList

/-- `/git push\s+([^\n]+)/i` and its `run`/`execute` variants. -/
def pushArgMatch (text : Chars) : Option (Chars × Caps) :=
  match3 (seqL [Lci "git push", wsP, .grp 1 (.plus (notIn ['\n']))])
         (seqL [Lci "run git push", wsP, .grp 1 (.plus (notIn ['\n']))])
         (seqL [Lci "execute git push", wsP, .grp 1 (.plus (notIn ['\n']))])
         text

def gitPushCmd (text : Chars) : Chars :=
  match cap1Truthy (pushArgMatch text) with
  | some a => "git push ".toList ++ a
  | none => "git push".toList

/-- `/<think>([\s\S]*?)<\/think>/` (no `/i` flag). -/
def thinkRe : RE :=
  seqL [Lcs "<think>", .grp 1 (.lazyStar (fun _ => true)), Lcs "</think>"]

/-- The `if (!command && accumulatedContent.includes("<think>"))` fallback:
case-sensitive substring checks against the captured thinking content, in
source order. -/
def thinkCmd (text : Chars) : Option Chars :=
  if inclL text "<think>".toList then
    match reFindL thinkRe text with
    | some (_, e) =>
        match capGet e 1 with
        | some tc =>
            if tc.isEmpty then none
            else if inclL tc "git status".toList then some "git status".toList
            else if inclL tc "git diff".toList then some "git diff".toList
            else if inclL tc "git log".toList then some "git log".toList
            else if inclL tc "git add".toList then some "git add .".toList
            else if inclL tc "git commit".toList then
              some "git commit -m \"Changes from Claude Code session\"".toList
            else if inclL tc "git push".toList then some "git push".toList
            else none
        | none => none
    | none => none
  else none

/-- The whole heuristic command-intent detector: pattern loop, then the
`else if` chain of git keyword detectors, then the think-block fallback
(which runs only when no command was found). -/
def detectCommandIntent (table : List Pat) (text : Chars) : Option Chars :=
  let fromTable := scanTable table text
  let lc := lowerL text
  let cmd :=
    match fromTable with
    | some c => some c
    | none =>
        if gitStatusCond lc then some "git status".toList
        else if gitAddCond lc then some (gitAddCmd text)
        else if gitCommitCond lc then some (gitCommitCmd text)
        else if gitPushCond lc then some (gitPushCmd text)
        else none
  match cmd with
  | some c => some c
  | none => thinkCmd text

/-!
## Explicit invocation blocks and the recovery result
-/

/-- `/<function_calls>([\s\S]*?)<\/function_calls>/`. -/
def explicitCallsRe : RE :=
  seqL [Lcs "<function_calls>", .grp 1 (.lazyStar (fun _ => true)),
        Lcs "</function_calls>"]

/-- `/<invoke name="([^"]+)">/`. -/
def invokeNameRe : RE :=
  seqL [Lcs "<invoke name=\"", .grp 1 (.plus (notIn [dquoteC])), Lcs "\">"]

/-- `/<parameter name="([^"]+)">([\s\S]*?)<\/parameter>/g`. -/
def paramRe : RE :=
  seqL [Lcs "<parameter name=\"", .grp 1 (.plus (notIn [dquoteC])),
        Lcs "\">", .grp 2 (.lazyStar (fun _ => true)), Lcs "</parameter>"]

/-- A parameter value: `JSON.parse(paramValue)` on success, otherwise the
raw string. -/
inductive ParamV where
  | js (j : Json)
  | raw (s : String)

/-- `params[paramName] = ...` for each `matchAll` hit, in order, later
assignments to the same name overriding earlier ones. -/
def extractParams (block : Chars) : List (String × ParamV) :=
  (reFindAll paramRe block).foldl
    (fun acc m =>
      match capGet m.2 1, capGet m.2 2 with
      | some n, some v =>
          let pv := match parseJsonL v with
            | some j => ParamV.js j
            | none => ParamV.raw (String.mk v)
          let k := String.mk n
          if acc.any (fun p => p.1 == k) then
            acc.map (fun p => if p.1 == k then (k, pv) else p)
          else acc ++ [(k, pv)]
      | _, _ => acc)
    []

/-- Outcome of the recovery stage: either the accumulated text is passed
through as ordinary content (`emitTextStream` / the plain-content result),
or a resolved invocation is produced. -/
inductive Recovery where
  | text (content : String)
  | invoke (name : String) (params : List (String × ParamV))

/-- `accumulatedContent.match(explicitFuncCallRegex)`, reduced to its one
observable: `match[1]`, the text between the markers. -/
def explicitBlock (cs : Chars) : Option Chars :=
  (reFindL explicitCallsRe cs).map (fun m => (capGet m.2 1).getD [])

/-- `match[1]?.match(/<invoke name="([^"]+)">/)`, reduced to `nameMatch[1]`. -/
def invokeName (block : Chars) : Option Chars :=
  (reFindL invokeNameRe block).map (fun m => (capGet m.2 1).getD [])

/-- The recovery stage shared by the streaming (lines 117-378) and
non-streaming (lines 666-943) Ollama paths, which differ only in their
pattern table: first the explicit `<function_calls>` block (whose presence
suppresses all heuristics); only if it is absent, the heuristic detector,
whose command becomes a synthesized `Bash` invocation; a present block
whose `<invoke name="...">` cannot be parsed degrades to plain text. -/
def recoveryWith (table : List Pat) (accumulated : String) : Recovery :=
  let cs := accumulated.toList
  match explicitBlock cs with
  | some inner =>
      match invokeName inner with
      | none => .text accumulated
      | some nm => .invoke (String.mk nm) (extractParams inner)
  | none =>
      match detectCommandIntent table cs with
      | some cmd => .invoke "Bash" [("command", ParamV.raw (String.mk cmd))]
      | none => .text accumulated

/-- Streaming-path recovery (openai.ts, `getCompletion`, lines 115-378). -/
def recoveryStreaming (accumulated : String) : Recovery :=
  recoveryWith streamingPatterns accumulated

/-- Non-streaming-path recovery (openai.ts, `getCompletion`,
lines 665-943). -/
def recoveryNonStreaming (accumulated : String) : Recovery :=
  recoveryWith nonStreamingPatterns accumulated

/-- The `command` argument of a recovered `Bash` invocation whose value is a
raw string, used to state claims about heuristic recovery. -/
def bashCmdOf : Recovery → Option String
  | .invoke n ps =>
      if n == "Bash" then
        match ps.find? (fun p => p.1 == "command") with
        | some (_, .raw s) => some s
        | _ => none
      else none
  | .text _ => none

/-!
## Unified chunks and the synthesized chunk generators

`id`, `created` and `object` are `Date.now()`-derived identifiers used only
for observability and are not modelled; `choices[0].delta` and
`choices[0].finish_reason` are.
-/

/-- `choices[0].delta`. -/
structure Delta where
  role : Option String
  content : Option Json
  fcName : Option String
  fcArgs : Option String

def emptyDelta : Delta :=
  { role := none, content := none, fcName := none, fcArgs := none }

/-- One OpenAI-format streaming chunk as emitted by this core. -/
structure CChunk where
  model : Json
  delta : Delta
  finish : Option String

/-- `emitTextStream` (openai.ts lines 537-557): the buffered-text release —
one chunk carrying the whole accumulated content, the role, and
`finish_reason: 'stop'`. -/
def emitTextStream (content : String) (model : String) : List CChunk :=
  [{ model := .jstr model,
     delta := { role := some "assistant", content := some (.jstr content),
                fcName := none, fcArgs := none },
     finish := some "stop" }]

/-- Successful `Bash` execution (openai.ts lines 405-431): the command
output in a fenced block, then a bare `finish_reason: 'stop'` chunk. -/
def bashSuccessChunks (command output model : String) : List CChunk :=
  [{ model := .jstr model,
     delta := { role := some "assistant",
                content := some (.jstr ("Here\x27s the output of `" ++
                  command ++ "`:\n\n```\n" ++ output ++ "\n```")),
                fcName := none, fcArgs := none },
     finish := none },
   { model := .jstr model, delta := emptyDelta, finish := some "stop" }]

/-- Failed `Bash` execution (openai.ts lines 438-464): the error message in
a fenced block, then a bare `finish_reason: 'stop'` chunk. -/
def bashErrorChunks (command errMsg model : String) : List CChunk :=
  [{ model := .jstr model,
     delta := { role := some "assistant",
                content := some (.jstr ("Error executing `" ++ command ++
                  "`:\n\n```\n" ++ errMsg ++ "\n```")),
                fcName := none, fcArgs := none },
     finish := none },
   { model := .jstr model, delta := emptyDelta, finish := some "stop" }]

/-- The execution collaborator's outcome (`execSync`: captured stdout, or a
thrown error whose message is reported). -/
inductive ExecOutcome where
  | ok (stdout : String)
  | err (message : String)

/-- The `Bash` direct-execution dispatch (openai.ts lines 387-468): both
outcomes are rendered as content chunks ending in `'stop'`; nothing is
re-thrown to the consumer. -/
def bashRun (command model : String) : ExecOutcome → List CChunk
  | .ok out => bashSuccessChunks command out model
  | .err m => bashErrorChunks command m model

/-- The synthesized function-call triple for a non-`Bash` invocation
(openai.ts lines 473-532): role + name, then the serialized arguments, then
`finish_reason: 'function_call'`; `content` is explicitly null throughout. -/
def functionCallChunks (name argsString model : String) : List CChunk :=
  [{ model := .jstr model,
     delta := { role := some "assistant", content := none,
                fcName := some name, fcArgs := none },
     finish := none },
   { model := .jstr model,
     delta := { role := none, content := none, fcName := none,
                fcArgs := some argsString },
     finish := none },
   { model := .jstr model,
     delta := { role := none, content := none, fcName := none,
                fcArgs := none },
     finish := some "function_call" }]

/-- Non-streaming chat-completion result (`choices[0].message` and its
finish reason). -/
structure CMessage where
  role : String
  content : Option Json
  finish : Option String

/-- Failed `Bash` execution on the non-streaming path
(openai.ts lines 986-999). -/
def bashErrorResult (command errMsg : String) : CMessage :=
  { role := "assistant",
    content := some (.jstr ("Error executing `" ++ command ++
      "`:\n\n```\n" ++ errMsg ++ "\n```")),
    finish := some "stop" }

/-!
## Stream processors

All three maintain a text buffer across `reader.read()` chunks, split it on
`'\n'`, `trim` each extracted line, skip empty lines and lines that fail
`JSON.parse`, and emit a chunk only for frames with a truthy
`message.content`.  The reads are modelled as already-decoded text: the
incremental UTF-8 `TextDecoder` (which carries partial-codepoint state and
never fails) sits upstream of everything the claims observe, and the line
sequence depends only on the concatenation of the decoded reads.
-/

/-- Per-line frame data shared by `createOllamaStreamProcessor`
(ollama-stream.js lines 39-73) and the Ollama branch of
`createStreamProcessor` (openai.ts lines 1131-1166): for a non-empty line
that parses and has truthy `message` and `message.content`, the content,
the `ollamaResponse.model || 'ollama-model'` value, and the
`done ? 'stop' : null` finish reason. -/
def ollamaLineData (l : Chars) : Option (Json × Json × Option String) :=
  if l.isEmpty then none
  else
    match parseJsonL l with
    | none => none
    | some j =>
        let m := j.getF "message"
        if jsTruthy m && jsTruthy (m.getF "content") then
          some (m.getF "content",
                jsOr (j.getF "model") (.jstr "ollama-model"),
                if jsTruthy (j.getF "done") then some "stop" else none)
        else none

/-- Chunk assembly with the `isFirstChunk` role flag. -/
def ollamaChunkOf (first : Bool) (d : Json × Json × Option String) :
    CChunk :=
  { model := d.2.1,
    delta := if first then
               { role := some "assistant", content := some d.1,
                 fcName := none, fcArgs := none }
             else
               { role := none, content := some d.1, fcName := none,
                 fcArgs := none },
    finish := d.2.2 }

/-- The per-line loop threading `isFirstChunk`. -/
def runLines (first : Bool) : List Chars → List CChunk
  | [] => []
  | l :: ls =>
      match ollamaLineData l with
      | some d => ollamaChunkOf first d :: runLines false ls
      | none => runLines first ls

/-- `createOllamaStreamProcessor` (ollama-stream.js): processes complete
lines only; when the reader reports `done` the loop breaks and any
remaining buffered partial line is discarded. -/
def createOllamaStreamProcessor (reads : List String) : List CChunk :=
  runLines true (feedReads reads).1

/-- The final-buffer flush of `createStreamProcessor` (openai.ts lines
1207-1209): `if (buffer.trim()) { const lines = buffer.trim().split('\n')
... }` — the flushed lines are not individually trimmed. -/
def flushLines (buf : Chars) : List Chars :=
  if (trimL buf).isEmpty then [] else splitAllNl (trimL buf)

/-- The Ollama branch of `createStreamProcessor` (openai.ts): the same
per-line processing, but any non-empty remaining buffer is flushed and
processed as final line(s), still threading `isFirstChunk`. -/
def createStreamProcessorOllama (reads : List String) : List CChunk :=
  let p := feedReads reads
  runLines true (p.1 ++ flushLines p.2)

/-- One line of the SSE branch of `createStreamProcessor` (openai.ts lines
1178-1203): `data: [DONE]` is skipped, a `data: ` line has its payload
parsed and passed through, anything else is ignored. -/
def sseLineOut (l : Chars) : Option Json :=
  if l == "data: [DONE]".toList then none
  else if startsWithL l "data: ".toList then
    let d := trimL (l.drop 6)
    if d.isEmpty then none else parseJsonL d
  else none

/-- One flushed line of the SSE branch (openai.ts lines 1248-1261). -/
def sseFlushOut (l : Chars) : Option Json :=
  if startsWithL l "data: ".toList && !(l == "data: [DONE]".toList) then
    let d := trimL (l.drop 6)
    if d.isEmpty then none else parseJsonL d
  else none

/-- The SSE branch of `createStreamProcessor`: parsed upstream chunks are
passed through unmodified (kept as raw JSON values here). -/
def createStreamProcessorSSE (reads : List String) : List Json :=
  let p := feedReads reads
  p.1.filterMap sseLineOut ++ (flushLines p.2).filterMap sseFlushOut

/-- Per-line output of `processOllamaStream` (ollama-client.js lines
82-100): `{ content: data.message.content, done: data.done || false }` for
frames with truthy `message` and `message.content`. -/
structure OCChunk where
  content : Json
  done : Json

def ocLineOut (l : Chars) : Option OCChunk :=
  if l.isEmpty then none
  else
    match parseJsonL l with
    | none => none
    | some j =>
        let m := j.getF "message"
        if jsTruthy m && jsTruthy (m.getF "content") then
          some { content := m.getF "content",
                 done := jsOr (j.getF "done") (.jbool false) }
        else none

/-- `processOllamaStream` (ollama-client.js): complete lines only; like
`createOllamaStreamProcessor` it discards an unterminated trailing line
when the reader reports `done`. -/
def processOllamaStream (reads : List String) : List OCChunk :=
  (feedReads reads).1.filterMap ocLineOut

/-- The content of an emitted `processOllamaStream` chunk, as a string. -/
def ocText (c : OCChunk) : String :=
  match c.content with
  | .jstr s => s
  | _ => ""

/-- Specification-side view of one NDJSON frame: the `message.content`
string of a line whose `message` is truthy, used to state claims about the
processors (it is related to `ocLineOut` by `ocLineOut_of_contentStr`). -/
def lineContentStr (l : Chars) : Option String :=
  match parseJsonL l with
  | some j =>
      if jsTruthy (j.getF "message") then
        match (j.getF "message").getF "content" with
        | .jstr s => some s
        | _ => none
      else none
  | none => none

/-- Concatenation of a list of strings, as a character list. -/
def catStrs (l : List String) : Chars :=
  l.foldr (fun s acc => s.toList ++ acc) []

/-!
## Message preparation (custom system prompt)
-/

/-- A chat message as passed to the Ollama client. -/
structure ChatMsg where
  role : String
  content : String
deriving DecidableEq

/-- The message-list preparation of both Ollama paths (openai.ts lines
72-90 and 626-644): with a custom system prompt configured for the model,
all `role: 'system'` messages are filtered out and the custom prompt is
unshifted as a new system message; otherwise the list is left as is. -/
def prepareMessages (customSystemPrompt : Option String)
    (msgs : List ChatMsg) : List ChatMsg :=
  match customSystemPrompt with
  | some p =>
      { role := "system", content := p } ::
        msgs.filter (fun m => m.role != "system")
  | none => msgs

/-!
## Supporting lemmas
-/

theorem parseJsonL_nil : parseJsonL [] = none := rfl

theorem splitAllNlAux_no_nl (cs : Chars) (h : '\n' ∉ cs) :
    ∀ acc : Chars, splitAllNlAux acc cs = [acc.reverse ++ cs] := by
  induction cs with
  | nil => intro acc; simp [splitAllNlAux]
  | cons c t ih =>
      intro acc
      have hc : ¬(c == '\n') = true := by
        simp only [beq_iff_eq]
        intro hce; exact h (hce ▸ List.mem_cons_self c t)
      have ht : '\n' ∉ t := fun hm => h (List.mem_cons_of_mem c hm)
      rw [splitAllNlAux, if_neg hc, ih ht (c :: acc)]
      simp

theorem splitAllNl_no_nl (cs : Chars) (h : '\n' ∉ cs) :
    splitAllNl cs = [cs] := by
  rw [splitAllNl, splitAllNlAux_no_nl cs h []]
  rfl

theorem splitCompleteLinesAux_no_nl (cs : Chars) (h : '\n' ∉ cs) :
    ∀ acc : Chars, splitCompleteLinesAux acc cs = ([], acc.reverse ++ cs) := by
  induction cs with
  | nil => intro acc; simp [splitCompleteLinesAux]
  | cons c t ih =>
      intro acc
      have hc : ¬(c == '\n') = true := by
        simp only [beq_iff_eq]
        intro hce; exact h (hce ▸ List.mem_cons_self c t)
      have ht : '\n' ∉ t := fun hm => h (List.mem_cons_of_mem c hm)
      rw [splitCompleteLinesAux, if_neg hc, ih ht (c :: acc)]
      simp

theorem splitCompleteLines_no_nl (cs : Chars) (h : '\n' ∉ cs) :
    splitCompleteLines cs = ([], cs) := by
  rw [splitCompleteLines, splitCompleteLinesAux_no_nl cs h []]
  rfl

theorem mem_trimL {a : Char} {cs : Chars} (h : a ∈ trimL cs) : a ∈ cs := by
  unfold trimL at h
  rw [List.mem_reverse] at h
  have h1 := (List.dropWhile_sublist (l := (cs.dropWhile jsWS).reverse) (p := jsWS)).mem h
  rw [List.mem_reverse] at h1
  exact (List.dropWhile_sublist (l := cs) (p := jsWS)).mem h1

theorem ocLineOut_none_of_parse (l : Chars) (h : parseJsonL l = none) :
    ocLineOut l = none := by
  unfold ocLineOut
  split
  · rfl
  · rw [h]

theorem ocLineOut_none_of_falsy (l : Chars) (j : Json)
    (hp : parseJsonL l = some j)
    (h : jsTruthy (j.getF "message") = false ∨
         jsTruthy ((j.getF "message").getF "content") = false) :
    ocLineOut l = none := by
  unfold ocLineOut
  split
  · rfl
  · rw [hp]
    rcases h with h | h <;> simp [h]

theorem ocLineOut_of_contentStr (l : Chars) (s : String)
    (h : lineContentStr l = some s) :
    (s = "" ∧ ocLineOut l = none) ∨
    (∃ d, ocLineOut l = some { content := Json.jstr s, done := d }) := by
  unfold lineContentStr at h
  split at h
  · next j hp =>
      split at h
      · next ht =>
          split at h
          · next s0 hc =>
              have hs : s0 = s := by simpa using h
              subst hs
              have hl : ¬l.isEmpty = true := by
                intro hle
                rw [List.isEmpty_iff] at hle
                rw [hle, parseJsonL_nil] at hp
                exact absurd hp (by simp)
              by_cases hse : s0.isEmpty
              · left
                constructor
                · exact (String.isEmpty_iff s0).mp hse
                · have hcond : (jsTruthy (j.getF "message") &&
                      jsTruthy ((j.getF "message").getF "content")) = false := by
                    rw [hc]
                    simp [jsTruthy, hse]
                  unfold ocLineOut
                  split
                  · rfl
                  · rw [hp]
                    simp [hcond]
              · right
                refine ⟨jsOr (j.getF "done") (.jbool false), ?_⟩
                have hcond : (jsTruthy (j.getF "message") &&
                    jsTruthy ((j.getF "message").getF "content")) = true := by
                  rw [hc]
                  rw [Bool.and_eq_true]
                  refine ⟨ht, ?_⟩
                  simp [jsTruthy, hse]
                unfold ocLineOut
                split
                · next hcontra => exact absurd hcontra hl
                · rw [hp]
                  simp only [hcond, if_true]
                  simp [hc]
          · exact absurd h (by simp)
      · exact absurd h (by simp)
  · exact absurd h (by simp)

theorem join_ocContents (lines : List Chars) (cs : List String)
    (h : List.Forall₂ (fun l c => lineContentStr l = some c) lines cs) :
    catStrs ((lines.filterMap ocLineOut).map ocText) = catStrs cs := by
  induction h with
  | nil => rfl
  | @cons l c ls cs2 hrel _ ih =>
      rcases ocLineOut_of_contentStr l c hrel with ⟨hs, hnone⟩ | ⟨d, hsome⟩
      · subst hs
        simp only [List.filterMap_cons, hnone]
        have hr : catStrs ("" :: cs2) = catStrs cs2 := by simp [catStrs]
        rw [hr]
        exact ih
      · simp only [List.filterMap_cons, hsome, List.map_cons]
        have hl : catStrs (ocText { content := Json.jstr c, done := d } ::
            (ls.filterMap ocLineOut).map ocText) =
            c.toList ++ catStrs ((ls.filterMap ocLineOut).map ocText) := by
          simp [catStrs, ocText]
        have hr : catStrs (c :: cs2) = c.toList ++ catStrs cs2 := by
          simp [catStrs]
        rw [hl, hr, ih]

theorem runLines_false_roles (ls : List Chars) :
    ∀ c ∈ runLines false ls, c.delta.role = none := by
  induction ls with
  | nil => intro c hc; simp [runLines] at hc
  | cons l t ih =>
      intro c hc
      rcases hd : ollamaLineData l with - | d
      · rw [runLines, hd] at hc
        exact ih c hc
      · rw [runLines, hd] at hc
        rcases List.mem_cons.mp hc with hh | hh
        · subst hh; rfl
        · exact ih c hh

theorem runLines_true_shape (ls : List Chars) (c : CChunk) (cs : List CChunk)
    (h : runLines true ls = c :: cs) :
    c.delta.role = some "assistant" ∧ c.delta.content.isSome = true ∧
    ∀ c2 ∈ cs, c2.delta.role = none := by
  induction ls with
  | nil => exact absurd h (by simp [runLines])
  | cons l t ih =>
      rcases hd : ollamaLineData l with - | d
      · rw [runLines, hd] at h
        exact ih h
      · rw [runLines, hd] at h
        have h2 : ollamaChunkOf true d :: runLines false t = c :: cs := h
        injection h2 with hc hcs
        subst hc
        subst hcs
        refine ⟨rfl, rfl, ?_⟩
        intro c2 hc2
        exact runLines_false_roles t c2 hc2

theorem countP_role_once (c : CChunk) (cs : List CChunk)
    (hc : c.delta.role.isSome = true)
    (hcs : ∀ c2 ∈ cs, c2.delta.role = none) :
    (c :: cs).countP (fun x => x.delta.role.isSome) = 1 := by
  rw [List.countP_cons]
  have h0 : cs.countP (fun x => x.delta.role.isSome) = 0 := by
    rw [List.countP_eq_zero]
    intro a ha
    simp [hcs a ha]
  simp [h0, hc]

theorem mk_toList (s : String) : String.mk s.toList = s := rfl

/-!
## Claims
-/

/-- C1: for every accumulated turn text that contains a well-formed explicit
invocation block (the `<function_calls>` markers with a parseable
`<invoke name="...">`) and whose text also matches the heuristic command
detector, recovery resolves the invocation from the explicit block — the
heuristic pattern table is consulted only when no explicit block is found. -/
theorem c1_explicit_block_priority (text : String) (inner nm : Chars)
    (hE : explicitBlock text.toList = some inner)
    (hN : invokeName inner = some nm)
    (hH : (detectCommandIntent streamingPatterns text.toList).isSome = true) :
    recoveryStreaming text = .invoke (String.mk nm) (extractParams inner) := by
  simp only [recoveryStreaming, recoveryWith, hE, hN]

/-- Turn text containing both an explicit invocation block and heuristic
command phrasing ("run git status"). -/
def inputC1 : String :=
  "I will run git status now <function_calls><invoke name=\"Bash\">" ++
  "<parameter name=\"command\">ls</parameter></invoke></function_calls>"

def blockC1 : Chars :=
  ("<invoke name=\"Bash\"><parameter name=\"command\">ls</parameter>" ++
   "</invoke>").toList

/-- C1 witness: on `inputC1` the heuristic detector would fire (pattern
`/run git (status|...)/i`), but the explicit block wins and the resolved
invocation is the block's `Bash`/`ls`. -/
theorem c1_explicit_block_priority_witness :
    recoveryStreaming inputC1 = .invoke "Bash" [("command", ParamV.raw "ls")] :=
  c1_explicit_block_priority inputC1 blockC1 "Bash".toList rfl rfl rfl

/-- The input of the C2 claim. -/
def inputC2 : String := "I\x27ll run git add to stage changes"

/-- C2 counterexample: on `"I'll run git add to stage changes"` neither
recovery path returns `git add .` — the pattern table matches first
(streaming: `/run git (status|...|add|...)/i` captures just `add`;
non-streaming: the special-handling branch keeps the whole matched text),
so the `git add .` default branch is never reached. -/
theorem c2_git_add_counterexample :
    bashCmdOf (recoveryStreaming inputC2) ≠ some "git add ." ∧
    bashCmdOf (recoveryNonStreaming inputC2) ≠ some "git add ." := by
  constructor
  · have h : bashCmdOf (recoveryStreaming inputC2) = some "add" := rfl
    rw [h]
    decide
  · have h : bashCmdOf (recoveryNonStreaming inputC2) =
        some "git add to stage changes" := rfl
    rw [h]
    decide

/-- C2 amended: on `"I'll run git add to stage changes"` the streaming path
recovers `{name: "Bash", arguments: {command: "add"}}` (the git pattern's
capture group) and the non-streaming path recovers
`{command: "git add to stage changes"}`; the `git add .` default applies
only when no table pattern matches, e.g. for input `"stage the changes"`. -/
theorem c2_git_add_amended :
    recoveryStreaming inputC2 = .invoke "Bash" [("command", ParamV.raw "add")] ∧
    recoveryNonStreaming inputC2 =
      .invoke "Bash" [("command", ParamV.raw "git add to stage changes")] ∧
    recoveryStreaming "stage the changes" =
      .invoke "Bash" [("command", ParamV.raw "git add .")] :=
  ⟨rfl, rfl, rfl⟩

/-- C3 counterexample: the turn text `"git commit"` contains `"git commit"`,
has no explicit block and carries no `-m` message, yet non-streaming
recovery returns `{command: "git commit"}` (the bare-git table pattern
matches before the commit-default branch), not the fixed placeholder
message the claim requires. -/
theorem c3_git_commit_counterexample :
    lcIncl (lowerL "git commit".toList) "git commit" = true ∧
    explicitBlock "git commit".toList = none ∧
    cap1Truthy (commitMsgMatch "git commit".toList) = none ∧
    recoveryNonStreaming "git commit" =
      .invoke "Bash" [("command", ParamV.raw "git commit")] ∧
    bashCmdOf (recoveryNonStreaming "git commit") ≠
      some "git commit -m \"Changes from Claude Code session\"" := by
  refine ⟨rfl, rfl, rfl, rfl, ?_⟩
  have h : bashCmdOf (recoveryNonStreaming "git commit") =
      some "git commit" := rfl
  rw [h]
  decide

/-- C3 amended: on the streaming path, a turn text containing
`"git commit"` with no explicit block recovers the fixed placeholder
message only when no table pattern matches, the git-status and git-add
detectors do not fire, and no quoted `-m`/`-am` message is present; on the
non-streaming path the bare `/git (...)/i` pattern intercepts such texts
(see the counterexample). -/
theorem c3_git_commit_amended (text : String)
    (hX : explicitBlock text.toList = none)
    (hTab : scanTable streamingPatterns text.toList = none)
    (hS : gitStatusCond (lowerL text.toList) = false)
    (hA : gitAddCond (lowerL text.toList) = false)
    (hC : lcIncl (lowerL text.toList) "git commit" = true)
    (hM : cap1Truthy (commitMsgMatch text.toList) = none)
    (hAM : cap1Truthy (commitAllMatch text.toList) = none) :
    recoveryStreaming text =
      .invoke "Bash" [("command",
        ParamV.raw "git commit -m \"Changes from Claude Code session\"")] := by
  simp only [String.toList] at hX hTab hS hA hC hM hAM
  have hcc : gitCommitCond (lowerL text.data) = true := by
    simp [gitCommitCond, hC]
  have hcmd : gitCommitCmd text.data =
      "git commit -m \"Changes from Claude Code session\"".toList := by
    simp [gitCommitCmd, hM, hAM, String.toList]
  simp [recoveryStreaming, recoveryWith, detectCommandIntent, hX, hTab, hS,
    hA, hcc, hcmd, mk_toList, String.toList]

/-- A text with commit intent that reaches the placeholder default. -/
def inputC3 : String := "please git commit now"

/-- C3 witness: `"please git commit now"` satisfies all the amended
conditions and streaming recovery returns the placeholder commit. -/
theorem c3_git_commit_amended_witness :
    recoveryStreaming inputC3 =
      .invoke "Bash" [("command",
        ParamV.raw "git commit -m \"Changes from Claude Code session\"")] :=
  c3_git_commit_amended inputC3 rfl rfl rfl rfl rfl rfl rfl

/-- C4 counterexample: an NDJSON turn whose only frame is a well-formed
`{"done": true}` line emits zero chunks, so no emitted chunk carries
`role = "assistant"` — "exactly one role chunk per turn" fails for turns
that emit nothing. -/
theorem c4_role_once_counterexample :
    (parseJson "\x7b\"done\": true\x7d").isSome = true ∧
    createOllamaStreamProcessor ["\x7b\"done\": true\x7d\n"] = [] ∧
    (createOllamaStreamProcessor ["\x7b\"done\": true\x7d\n"]).countP
      (fun x => x.delta.role.isSome) ≠ 1 := by
  refine ⟨rfl, rfl, ?_⟩
  decide

/-- C4 amended: across every turn that emits at least one chunk — streamed
NDJSON passthrough (both processors), buffered-text release, Bash execution
result, or synthesized function-call triple — exactly one emitted chunk
carries `role = "assistant"`, and it is the first chunk, which carries the
turn's first non-null content (or, for the function-call triple, the
tool-call start). -/
theorem c4_role_once_amended :
    (∀ (reads : List String) (c : CChunk) (cs : List CChunk),
        createOllamaStreamProcessor reads = c :: cs →
        c.delta.role = some "assistant" ∧ c.delta.content.isSome = true ∧
        (c :: cs).countP (fun x => x.delta.role.isSome) = 1) ∧
    (∀ (reads : List String) (c : CChunk) (cs : List CChunk),
        createStreamProcessorOllama reads = c :: cs →
        c.delta.role = some "assistant" ∧ c.delta.content.isSome = true ∧
        (c :: cs).countP (fun x => x.delta.role.isSome) = 1) ∧
    (∀ content model : String,
        (emitTextStream content model).countP
          (fun x => x.delta.role.isSome) = 1 ∧
        (emitTextStream content model).head?.map (fun c => c.delta.role) =
          some (some "assistant") ∧
        (emitTextStream content model).head?.map
          (fun c => c.delta.content.isSome) = some true) ∧
    (∀ (command model : String) (out : ExecOutcome),
        (bashRun command model out).countP
          (fun x => x.delta.role.isSome) = 1 ∧
        (bashRun command model out).head?.map (fun c => c.delta.role) =
          some (some "assistant") ∧
        (bashRun command model out).head?.map
          (fun c => c.delta.content.isSome) = some true) ∧
    (∀ name args model : String,
        (functionCallChunks name args model).countP
          (fun x => x.delta.role.isSome) = 1 ∧
        (functionCallChunks name args model).head?.map
          (fun c => c.delta.role) = some (some "assistant") ∧
        (functionCallChunks name args model).head?.map
          (fun c => c.delta.fcName.isSome) = some true) := by
  refine ⟨?_, ?_, ?_, ?_, ?_⟩
  · intro reads c cs h
    obtain ⟨h1, h2, h3⟩ := runLines_true_shape _ c cs h
    exact ⟨h1, h2, countP_role_once c cs (by rw [h1]; rfl) h3⟩
  · intro reads c cs h
    obtain ⟨h1, h2, h3⟩ := runLines_true_shape _ c cs h
    exact ⟨h1, h2, countP_role_once c cs (by rw [h1]; rfl) h3⟩
  · intro content model
    exact ⟨rfl, rfl, rfl⟩
  · intro command model out
    cases out <;> exact ⟨rfl, rfl, rfl⟩
  · intro name args model
    exact ⟨rfl, rfl, rfl⟩

/-- A single content frame. -/
def readC4 : String := "\x7b\"message\":\x7b\"content\":\"hi\"\x7d\x7d\n"

/-- The chunk the processor emits for `readC4`. -/
def chunkC4 : CChunk :=
  { model := .jstr "ollama-model",
    delta := { role := some "assistant", content := some (.jstr "hi"),
               fcName := none, fcArgs := none },
    finish := none }

/-- C4 witness: the amended invariant evaluated on a one-frame turn. -/
theorem c4_role_once_amended_witness :
    chunkC4.delta.role = some "assistant" ∧
    chunkC4.delta.content.isSome = true ∧
    [chunkC4].countP (fun x => x.delta.role.isSome) = 1 :=
  c4_role_once_amended.1 [readC4] chunkC4 [] rfl

/-- C5: for every NDJSON input whose extracted lines are N content-carrying
frames followed by a final `done: true` frame without content, the
concatenation of the contents of the chunks produced by
`processOllamaStream` equals the concatenation of the lines'
`message.content` fields, in input order (frames whose content is the empty
string are skipped by the processor and contribute nothing either way). -/
theorem c5_round_trip (reads : List String) (lines : List Chars)
    (cs : List String) (dline : Chars) (dj : Json)
    (hL : (feedReads reads).1 = lines ++ [dline])
    (hF : List.Forall₂ (fun l c => lineContentStr l = some c) lines cs)
    (hD : parseJsonL dline = some dj)
    (hDone : jsTruthy (dj.getF "done") = true)
    (hNC : jsTruthy ((dj.getF "message").getF "content") = false) :
    catStrs ((processOllamaStream reads).map ocText) = catStrs cs := by
  unfold processOllamaStream
  rw [hL, List.filterMap_append]
  have hdl : ocLineOut dline = none :=
    ocLineOut_none_of_falsy dline dj hD (Or.inr hNC)
  simp only [List.filterMap_cons, hdl, List.filterMap_nil, List.append_nil]
  exact join_ocContents lines cs hF

/-- A two-content-frame stream with a final done frame. -/
def readsC5 : List String :=
  ["\x7b\"message\":\x7b\"content\":\"Hello\"\x7d\x7d\n" ++
   "\x7b\"message\":\x7b\"content\":\" world\"\x7d\x7d\n" ++
   "\x7b\"done\": true\x7d\n"]

/-- C5 witness. -/
theorem c5_round_trip_witness :
    catStrs ((processOllamaStream readsC5).map ocText) =
      catStrs ["Hello", " world"] :=
  c5_round_trip readsC5
    ["\x7b\"message\":\x7b\"content\":\"Hello\"\x7d\x7d".toList,
     "\x7b\"message\":\x7b\"content\":\" world\"\x7d\x7d".toList]
    ["Hello", " world"]
    "\x7b\"done\": true\x7d".toList
    (Json.jobj [("done", Json.jbool true)])
    rfl
    (List.Forall₂.cons rfl (List.Forall₂.cons rfl List.Forall₂.nil))
    rfl rfl rfl

/-- C6: an NDJSON stream whose extracted lines are a valid content line, a
line that is not valid JSON, and another valid content line yields exactly
the two valid content fragments in order; the malformed line is skipped
inside the processor's `try/catch` and no error reaches the consumer (the
model is a total function). -/
theorem c6_malformed_resilience (reads : List String) (l1 l2 l3 : Chars)
    (c1 c3 : String)
    (hL : (feedReads reads).1 = [l1, l2, l3])
    (h1 : lineContentStr l1 = some c1) (h1n : ¬c1 = "")
    (h2 : parseJsonL l2 = none)
    (h3 : lineContentStr l3 = some c3) (h3n : ¬c3 = "") :
    (processOllamaStream reads).map ocText = [c1, c3] := by
  unfold processOllamaStream
  rw [hL]
  rcases ocLineOut_of_contentStr l1 c1 h1 with ⟨he, -⟩ | ⟨d1, ho1⟩
  · exact absurd he h1n
  rcases ocLineOut_of_contentStr l3 c3 h3 with ⟨he, -⟩ | ⟨d3, ho3⟩
  · exact absurd he h3n
  have ho2 := ocLineOut_none_of_parse l2 h2
  simp [List.filterMap_cons, ho1, ho2, ho3, ocText]

/-- A malformed line sandwiched between two valid frames. -/
def readsC6 : List String :=
  ["\x7b\"message\":\x7b\"content\":\"one\"\x7d\x7d\n" ++
   "not json\n" ++
   "\x7b\"message\":\x7b\"content\":\"two\"\x7d\x7d\n"]

/-- C6 witness. -/
theorem c6_malformed_resilience_witness :
    (processOllamaStream readsC6).map ocText = ["one", "two"] :=
  c6_malformed_resilience readsC6
    "\x7b\"message\":\x7b\"content\":\"one\"\x7d\x7d".toList
    "not json".toList
    "\x7b\"message\":\x7b\"content\":\"two\"\x7d\x7d".toList
    "one" "two" rfl rfl (by decide) rfl rfl (by decide)

/-- C7: for every recovered `Bash` invocation whose execution collaborator
fails, the emitted output is a content chunk whose text contains the error
message inside a fenced code block, followed by a terminal chunk with
finish reason `"stop"`; no chunk carries the tool-call finish marker, and
the same shaping holds for the non-streaming result object.  (The
`try/catch` makes the generator total: no error propagates.) -/
theorem c7_error_shaping (command msg model : String) :
    (∃ t : String,
      (bashRun command model (.err msg)).head?.map
        (fun c => c.delta.content) = some (some (.jstr t)) ∧
      (∃ pre post : String,
        t = pre ++ ("```\n" ++ msg ++ "\n```") ++ post) ∧
      (bashErrorResult command msg).content = some (.jstr t)) ∧
    (bashRun command model (.err msg)).map (fun c => c.finish) =
      [none, some "stop"] ∧
    (∀ c ∈ bashRun command model (.err msg),
      ¬c.finish = some "function_call") ∧
    (bashErrorResult command msg).finish = some "stop" := by
  refine ⟨⟨"Error executing `" ++ command ++ "`:\n\n```\n" ++ msg ++ "\n```",
    rfl, ⟨"Error executing `" ++ command ++ "`:\n\n", "", ?_⟩, rfl⟩, rfl, ?_, rfl⟩
  · rw [String.append_empty]
    apply String.ext
    simp [String.data_append, List.append_assoc]
  · intro c hc
    simp only [bashRun, bashErrorChunks, List.mem_cons,
      List.not_mem_nil, or_false] at hc
    rcases hc with h | h <;> subst h
    · exact fun h => Option.noConfusion h
    · exact fun h => absurd (Option.some.inj h) (by decide)

/-- A complete content frame not terminated by a newline. -/
def lineC8 : String := "\x7b\"message\":\x7b\"content\":\"hi\"\x7d,\"done\":true\x7d"

/-- C8 counterexample: a stream ending in a valid content frame with no
trailing newline.  `processOllamaStream` and `createOllamaStreamProcessor`
break out of their read loop with the frame still in the buffer and emit
nothing — the trailing partial frame is lost, contradicting the claim that
the non-empty remaining buffer is always flushed as a final line; only
`createStreamProcessor` flushes it. -/
theorem c8_flush_counterexample :
    lineContentStr lineC8.toList = some "hi" ∧
    processOllamaStream [lineC8] = [] ∧
    createOllamaStreamProcessor [lineC8] = [] ∧
    (createStreamProcessorOllama [lineC8]).map (fun c => c.delta.content) =
      [some (Json.jstr "hi")] :=
  ⟨rfl, rfl, rfl, rfl⟩

/-- C8 amended: on end of input with a non-empty buffered trailing line,
`createStreamProcessor` (openai.ts) flushes the trimmed buffer and
processes it as final line(s); `processOllamaStream` (ollama-client.js) and
`createOllamaStreamProcessor` (ollama-stream.js) discard it. -/
theorem c8_flush_amended (s : String)
    (hnl : '\n' ∉ s.toList)
    (hne : (trimL s.toList).isEmpty = false) :
    createStreamProcessorOllama [s] = runLines true [trimL s.toList] ∧
    createOllamaStreamProcessor [s] = [] ∧
    processOllamaStream [s] = [] := by
  have h0 : splitCompleteLines s.toList = ([], s.toList) :=
    splitCompleteLines_no_nl s.toList hnl
  have hfeed : feedReads [s] = ([], s.toList) := by
    have e : feedReads [s] =
        (([] : List Chars) ++ (splitCompleteLines ([] ++ s.toList)).1,
         (splitCompleteLines ([] ++ s.toList)).2) := rfl
    rw [e]
    simp only [List.nil_append]
    rw [h0]
  have hnl2 : '\n' ∉ trimL s.toList := fun hm => hnl (mem_trimL hm)
  have hflush : flushLines s.toList = [trimL s.toList] := by
    unfold flushLines
    rw [hne, if_neg (by simp), splitAllNl_no_nl _ hnl2]
  refine ⟨?_, ?_, ?_⟩
  · have e : createStreamProcessorOllama [s] =
        runLines true ((feedReads [s]).1 ++ flushLines (feedReads [s]).2) :=
      rfl
    rw [e, hfeed]
    show runLines true ([] ++ flushLines s.toList) = _
    rw [List.nil_append, hflush]
  · have e : createOllamaStreamProcessor [s] =
        runLines true (feedReads [s]).1 := rfl
    rw [e, hfeed]
    rfl
  · have e : processOllamaStream [s] =
        (feedReads [s]).1.filterMap ocLineOut := rfl
    rw [e, hfeed]
    rfl

/-- C8 witness: the amended statement at the unterminated frame `lineC8`. -/
theorem c8_flush_amended_witness :
    createStreamProcessorOllama [lineC8] = runLines true [trimL lineC8.toList] ∧
    createOllamaStreamProcessor [lineC8] = [] ∧
    processOllamaStream [lineC8] = [] :=
  c8_flush_amended lineC8 (by decide) rfl

/-- C9: with a custom system prompt configured for the resolved model, the
message list handed to the Ollama client is the original list with every
`role: 'system'` message removed and one system message carrying the custom
prompt prepended; the non-system messages are unchanged, in order (the
filtered list is untouched), and any remaining system message is exactly
the custom one.  With no custom prompt, the list passes through unchanged. -/
theorem c9_system_prompt (msgs : List ChatMsg) (p : String) :
    prepareMessages (some p) msgs =
      { role := "system", content := p } ::
        msgs.filter (fun m => m.role != "system") ∧
    (prepareMessages (some p) msgs).filter (fun m => m.role != "system") =
      msgs.filter (fun m => m.role != "system") ∧
    (∀ m ∈ prepareMessages (some p) msgs, m.role = "system" →
        m = { role := "system", content := p }) ∧
    prepareMessages none msgs = msgs := by
  refine ⟨rfl, ?_, ?_, rfl⟩
  · show List.filter _ ({ role := "system", content := p } ::
        msgs.filter (fun m => m.role != "system")) = _
    rw [List.filter_cons]
    simp [List.filter_filter]
  · intro m hm hrole
    rcases List.mem_cons.mp hm with h | h
    · exact h
    · exfalso
      have hf := List.of_mem_filter h
      rw [hrole] at hf
      simp at hf

def msgsC9 : List ChatMsg := [⟨"system", "old"⟩, ⟨"user", "hi"⟩]

/-- C9 witness: the theorem evaluated on a two-message list. -/
theorem c9_system_prompt_witness :
    prepareMessages (some "P") msgsC9 =
      { role := "system", content := "P" } ::
        msgsC9.filter (fun m => m.role != "system") ∧
    ({ role := "system", content := "P" } : ChatMsg) =
      { role := "system", content := "P" } :=
  ⟨(c9_system_prompt msgsC9 "P").1,
   (c9_system_prompt msgsC9 "P").2.2.1 { role := "system", content := "P" }
     (by decide) rfl⟩

/-- A lone `done: true` frame, newline-terminated. -/
def lineC10 : String := "\x7b\"done\": true\x7d\n"

/-- A content frame followed by a contentless `done: true` frame. -/
def streamC10 : String :=
  "\x7b\"message\":\x7b\"content\":\"hi\"\x7d\x7d\n\x7b\"done\": true\x7d\n"

/-- C10: a parsed NDJSON line whose `message.content` is missing, null or
the empty string yields no chunk (dropping it from the line sequence leaves
the output unchanged); in particular a lone contentless `done: true` frame
produces no output chunk, and a stream whose `done` frame carries no
content ends without any chunk whose finish reason is `"stop"`. -/
theorem c10_falsy_content (pre post : List Chars) (l : Chars) (j : Json)
    (hp : parseJsonL l = some j)
    (hc : (j.getF "message").getF "content" = Json.jnull ∨
          (j.getF "message").getF "content" = Json.jstr "") :
    ((pre ++ l :: post).filterMap ocLineOut =
      (pre ++ post).filterMap ocLineOut) ∧
    processOllamaStream [lineC10] = [] ∧
    (∀ c ∈ createOllamaStreamProcessor [streamC10],
      ¬c.finish = some "stop") := by
  have hfalsy : jsTruthy ((j.getF "message").getF "content") = false := by
    rcases hc with h | h <;> rw [h] <;> rfl
  have hnone : ocLineOut l = none :=
    ocLineOut_none_of_falsy l j hp (Or.inr hfalsy)
  refine ⟨?_, rfl, ?_⟩
  · simp [List.filterMap_append, List.filterMap_cons, hnone]
  · intro c hcm
    rw [show createOllamaStreamProcessor [streamC10] = [chunkC4] from rfl]
      at hcm
    have hce := List.mem_singleton.mp hcm
    subst hce
    intro h
    exact Option.noConfusion h

def lineHi : Chars := "\x7b\"message\":\x7b\"content\":\"hi\"\x7d\x7d".toList

def lineDone : Chars := "\x7b\"done\": true\x7d".toList

/-- C10 witness: dropping the contentless done frame from a two-line
sequence leaves the output unchanged. -/
theorem c10_falsy_content_witness :
    (([lineHi] ++ lineDone :: []).filterMap ocLineOut =
      ([lineHi] ++ []).filterMap ocLineOut) ∧
    processOllamaStream [lineC10] = [] ∧
    (∀ c ∈ createOllamaStreamProcessor [streamC10],
      ¬c.finish = some "stop") :=
  c10_falsy_content [lineHi] [] lineDone
    (Json.jobj [("done", Json.jbool true)]) rfl (Or.inl rfl)

end AnonKode
